import Mathlib

/-!
Verification of the datanadhi log SDK against its specification.

The Python sources are shallowly embedded as Lean definitions:

* pure functions become Lean functions;
* Python values appearing in log payloads become the inductive `Value`
  (floats are not needed by any claim and are omitted);
* real-valued arithmetic (`fill_percentage` and the 0.10 / 0.90
  watermarks) is modelled over `ℚ`;
* fallible code (`try`/`except`) is modelled with `Except`;
* the external `re.match` primitive is modelled by an oracle `ReOracle`:
  `raises p` says whether compiling the pattern `p` raises `re.error`
  (in Python this depends only on the pattern), and `rmatches p s` gives
  the boolean outcome of `re.match(p, s)` for valid patterns;
* stateful objects (`SafeQueue`, the drain worker, the processor latch)
  become explicit state-passing functions, and the code that runs on
  other threads is modelled as a labelled transition system whose atomic
  steps are the lock-protected sections of the source.
-/

namespace DataNadhi

/-! ## Python values and payload lookup (utils/rules/engine.py) -/

/-- A Python value as it can occur in a log payload.  `null` is Python
`None`; nested dictionaries are association lists in insertion order. -/
inductive Value where
  | null : Value
  | bool (b : Bool) : Value
  | int (n : Int) : Value
  | str (s : String) : Value
  | list (xs : List Value) : Value
  | dict (xs : List (String × Value)) : Value

/-- The single-quote character used by Python `repr` for strings. -/
def sq : String := String.mk [Char.ofNat 39]

mutual

/-- Python `repr` of a value (used by `str` for elements of containers). -/
def pyRepr : Value → String
  | .null => "None"
  | .bool b => if b then "True" else "False"
  | .int n => toString n
  | .str s => sq ++ s ++ sq
  | .list xs => "[" ++ pyReprList xs ++ "]"
  | .dict xs => "\x7b" ++ pyReprDict xs ++ "\x7d"

/-- Comma-separated `repr`s of the elements of a Python list. -/
def pyReprList : List Value → String
  | [] => ""
  | [v] => pyRepr v
  | v :: vs => pyRepr v ++ ", " ++ pyReprList vs

/-- Comma-separated `key: value` `repr`s of the items of a Python dict. -/
def pyReprDict : List (String × Value) → String
  | [] => ""
  | [(k, v)] => sq ++ k ++ sq ++ ": " ++ pyRepr v
  | (k, v) :: kvs => sq ++ k ++ sq ++ ": " ++ pyRepr v ++ ", " ++ pyReprDict kvs

end

/-- Python `str` of a value. -/
def pyStr : Value → String
  | .str s => s
  | v => pyRepr v

/-- Python `dict.get`: first binding of `k`, or `None` when absent. -/
def dictGet (xs : List (String × Value)) (k : String) : Option Value :=
  match xs.find? (fun kv => kv.1 == k) with
  | some kv => some kv.2
  | none => none

/-- One step of the `get_nested_value` walk:
`val = val.get(k) if isinstance(val, dict) else None`.  A stored Python
`None` is indistinguishable from an absent key, so both map to `none`. -/
def lookupKey (v : Option Value) (k : String) : Option Value :=
  match v with
  | some (.dict xs) =>
    match dictGet xs k with
    | some .null => none
    | r => r
  | _ => none

/-- The loop of `get_nested_value`, with the early `break` on `None`. -/
def getNestedGo : List String → Option Value → Option Value
  | [], v => v
  | k :: ks, v =>
    match lookupKey v k with
    | none => none
    | some w => getNestedGo ks (some w)

/-- Character-level worker for `splitDots`: `acc` holds the current
segment in reverse. -/
def splitDotsGo : List Char → List Char → List String
  | [], acc => [String.mk acc.reverse]
  | c :: rest, acc =>
    if c = Char.ofNat 46 then String.mk acc.reverse :: splitDotsGo rest []
    else splitDotsGo rest (c :: acc)

/-- Python `key_path.split(".")`: split on every dot; the empty string
splits to `[""]`. -/
def splitDots (s : String) : List String :=
  splitDotsGo s.toList []

/-- Source `get_nested_value(data, key_path)` from utils/rules/engine.py:
split the dotted path and walk the nested dictionaries; `none` models the
Python `None` result. -/
def get_nested_value (data : List (String × Value)) (key_path : String) : Option Value :=
  getNestedGo (splitDots key_path) (some (.dict data))

/-! ## Rule data model (utils/rules/data_model.py, compiled form) -/

/-- Source `ConditionType`: exact, partial or regex match. -/
inductive ConditionType where
  | EXACT
  | PARTIAL
  | REGEX
deriving DecidableEq

/-- A compiled `Condition`. -/
structure Condition where
  key : String
  type : ConditionType
  negate : Bool := false
  value : String
deriving DecidableEq

/-- A compiled `Action`: whether to mirror to stdout and which pipelines
to trigger.  The Python field is a `set[str]`, modelled as `Finset`. -/
structure Action where
  stdout : Bool := false
  pipelines : Finset String := ∅
deriving DecidableEq

/-- A compiled `Rule` (one clause): `any_condition_match` selects
any-match (OR) versus all-match (AND) evaluation of `conditions`. -/
structure Rule where
  any_condition_match : Bool := false
  conditions : List Condition
deriving DecidableEq

/-- One `RuleAction` group: an action together with its clauses. -/
structure RuleAction where
  action : Action
  rules : List Rule
deriving DecidableEq

/-! ## The `re.match` oracle -/

/-- Oracle for the external `re` library.  `raises p` states that
compiling pattern `p` raises `re.error` (in Python this depends only on
the pattern); `rmatches p s` is the boolean outcome of `re.match(p, s)`
for a pattern that compiles. -/
structure ReOracle where
  raises : String → Bool
  rmatches : String → String → Bool

/-- Source `bool(re.match(pattern, s))`, with `re.error` as an `Except` error. -/
def re_match (R : ReOracle) (pattern s : String) : Except Unit Bool :=
  if R.raises pattern then .error () else .ok (R.rmatches pattern s)

/-! ## `match_condition` (utils/rules/engine.py, lines 32-58) -/

/-- Python `value == cond_val` where `cond_val` is a `str`: only string
values can compare equal. -/
def valueEqStr (v : Value) (s : String) : Bool :=
  match v with
  | .str t => t == s
  | _ => false

/-- Source `match_condition(value, condition)`.  Mirrors the source exactly:
a `None` value returns `False` immediately, *before* the `negate` flag is
consulted; otherwise the boolean result of the typed comparison is
computed and inverted when `negate` is set.  `re.error` propagates as an
`Except` error. -/
def match_condition (R : ReOracle) (value : Option Value) (c : Condition) :
    Except Unit Bool :=
  match value with
  | none => .ok false
  | some v => do
    let result ←
      match c.type with
      | .EXACT => Except.ok (valueEqStr v c.value)
      | .PARTIAL => Except.ok (decide (c.value.toList <:+: (pyStr v).toList))
      | .REGEX => re_match R c.value (pyStr v)
    if c.negate then Except.ok (!result) else Except.ok result

/-! ## `evaluate_rules` (utils/rules/engine.py, lines 61-106) -/

/-- The per-rule condition loop.  `conditions_match` is initialised to
`not any_condition_match`; the loop breaks to `true` on the first match
of an any-match clause and to `false` on the first miss of an all-match
clause. -/
def condLoop (R : ReOracle) (log : List (String × Value)) (anyFlag : Bool) :
    List Condition → Except Unit Bool
  | [] => .ok (!anyFlag)
  | c :: rest => do
    let m ← match_condition R (get_nested_value log c.key) c
    if m && anyFlag then Except.ok true
    else if !(m || anyFlag) then Except.ok false
    else condLoop R log anyFlag rest

/-- The `for rule in rules` loop of one `(action, rules)` group: each
matching rule unions the action's pipelines into the accumulator and ORs
its stdout flag. -/
def groupLoop (R : ReOracle) (log : List (String × Value)) (act : Action)
    (acc : Finset String × Bool) : List Rule → Except Unit (Finset String × Bool)
  | [] => .ok acc
  | rule :: rest => do
    let cm ← condLoop R log rule.any_condition_match rule.conditions
    if cm then
      groupLoop R log act (acc.1 ∪ act.pipelines, acc.2 || act.stdout) rest
    else
      groupLoop R log act acc rest

/-- The outer `for action, rules in rule_actions` loop. -/
def actionsLoop (R : ReOracle) (log : List (String × Value))
    (acc : Finset String × Bool) : List RuleAction → Except Unit (Finset String × Bool)
  | [] => .ok acc
  | ra :: rest => do
    let acc2 ← groupLoop R log ra.action acc ra.rules
    actionsLoop R log acc2 rest

/-- The body of the `try` block of `evaluate_rules`: the falsy check on
`rule_actions` (`None` or the empty table both return `([], False)`),
then the nested loops. -/
def evalTry (R : ReOracle) (log : List (String × Value))
    (ras : Option (List RuleAction)) : Except Unit (Finset String × Bool) :=
  match ras with
  | none => .ok (∅, false)
  | some l => if l = [] then .ok (∅, false) else actionsLoop R log (∅, false) l

/-- Source `evaluate_rules(log_dict, rule_actions)`: any exception raised inside
the `try` block is swallowed and `([], False)` is returned.  The Python
set of pipelines is modelled as a `Finset String`. -/
def evaluate_rules (R : ReOracle) (log : List (String × Value))
    (ras : Option (List RuleAction)) : Finset String × Bool :=
  match evalTry R log ras with
  | .ok r => r
  | .error _ => (∅, false)

/-! ## Specification-side evaluator (for the refinement claim C4)

These definitions follow the spec's words: a group contributes iff at
least one of its clauses is true; an any-match clause is true iff at
least one condition matches, an all-match clause iff every condition
matches; the result is the union of the contributing groups' pipelines
together with the OR of their stdout flags. -/

/-- The pure result of `match_condition` when no exception occurs. -/
def match_conditionB (R : ReOracle) (value : Option Value) (c : Condition) : Bool :=
  match value with
  | none => false
  | some v =>
    let result :=
      match c.type with
      | .EXACT => valueEqStr v c.value
      | .PARTIAL => decide (c.value.toList <:+: (pyStr v).toList)
      | .REGEX => R.rmatches c.value (pyStr v)
    if c.negate then !result else result

/-- A single condition holds against a payload. -/
def condHolds (R : ReOracle) (log : List (String × Value)) (c : Condition) : Bool :=
  match_conditionB R (get_nested_value log c.key) c

/-- Spec: an any-match clause is true iff at least one condition matches;
an all-match clause is true iff every condition matches. -/
def clauseTrue (R : ReOracle) (log : List (String × Value)) (rule : Rule) : Bool :=
  if rule.any_condition_match then rule.conditions.any (condHolds R log)
  else rule.conditions.all (condHolds R log)

/-- Spec: a group contributes iff at least one of its clauses is true. -/
def groupTriggered (R : ReOracle) (log : List (String × Value)) (ra : RuleAction) : Bool :=
  ra.rules.any (clauseTrue R log)

/-- Spec: the union of the pipelines of every contributing group. -/
def specPipes (R : ReOracle) (log : List (String × Value)) :
    List RuleAction → Finset String
  | [] => ∅
  | ra :: rest =>
    (if groupTriggered R log ra then ra.action.pipelines else ∅) ∪ specPipes R log rest

/-- Spec: the OR of the stdout flags of the contributing groups. -/
def specStdout (R : ReOracle) (log : List (String × Value))
    (l : List RuleAction) : Bool :=
  l.any (fun ra => groupTriggered R log ra && ra.action.stdout)

/-- The spec-side evaluation result. -/
def evalSpec (R : ReOracle) (log : List (String × Value))
    (ras : Option (List RuleAction)) : Finset String × Bool :=
  match ras with
  | none => (∅, false)
  | some l => (specPipes R log l, specStdout R log l)

/-! ## SafeQueue (async_processing/queue.py)

The wrapped `queue.Queue` ring is the list `ring` (front = next item
out), the writeback buffer is `writeback`, and `unfinished` is the
queue's `unfinished_tasks` counter (incremented by every `put_nowait`,
decremented by `task_done`).  Following Python's `queue.Queue`, a
`maxsize ≤ 0` means the ring is unbounded. -/

structure SafeQueue (α : Type) where
  maxsize : Nat
  ring : List α := []
  writeback : List α := []
  unfinished : Nat := 0
deriving DecidableEq

/-- Source `SafeQueue(maxsize)`: empty ring and writeback buffer. -/
def mkSafeQueue (α : Type) (maxsize : Nat) : SafeQueue α :=
  { maxsize := maxsize }

/-- Source `Queue.put_nowait`: raises `Full` (modelled as `none`) iff the queue
is bounded (`maxsize > 0`) and the ring already holds `maxsize` items;
otherwise appends and increments `unfinished_tasks`. -/
def SafeQueue.put_nowait (q : SafeQueue α) (x : α) : Option (SafeQueue α) :=
  if 0 < q.maxsize ∧ q.maxsize ≤ q.ring.length then none
  else some { q with ring := q.ring ++ [x], unfinished := q.unfinished + 1 }

/-- Source `SafeQueue.add`: `True` iff `put_nowait` succeeded; on `Full` the
state is unchanged. -/
def SafeQueue.add (q : SafeQueue α) (x : α) : Bool × SafeQueue α :=
  match q.put_nowait x with
  | some q2 => (true, q2)
  | none => (false, q)

/-- Source `Queue.get_nowait`: pop the front of the ring (does not touch
`unfinished_tasks`), or `Empty` (modelled as `none`). -/
def SafeQueue.get_nowait (q : SafeQueue α) : Option α × SafeQueue α :=
  match q.ring with
  | [] => (none, q)
  | x :: rest => (some x, { q with ring := rest })

/-- The `for item in buf` loop of `_try_drain_writeback`: re-inject the
copied buffer into the ring; on the first `Full` only the *current* item
is appended back to the (already cleared) buffer before the `break` —
the remaining items of `buf` are left nowhere. -/
def SafeQueue.drainLoop (q : SafeQueue α) : List α → SafeQueue α
  | [] => q
  | x :: rest =>
    match q.put_nowait x with
    | some q2 => SafeQueue.drainLoop q2 rest
    | none => { q with writeback := q.writeback ++ [x] }

/-- Source `SafeQueue._try_drain_writeback`: take the buffer under the lock,
clear it, and re-inject it into the ring. -/
def SafeQueue.try_drain_writeback (q : SafeQueue α) : SafeQueue α :=
  match q.writeback with
  | [] => q
  | buf => SafeQueue.drainLoop { q with writeback := [] } buf

/-- Source `SafeQueue.get`: one `_get` attempt (blocking and timeouts are not
modelled: `none` stands for the `Empty` outcome after the timeout), then
the writeback drain, then one retry if the first attempt was empty. -/
def SafeQueue.get (q : SafeQueue α) : Option α × SafeQueue α :=
  let (item, q1) := q.get_nowait
  let q2 := q1.try_drain_writeback
  match item with
  | none => q2.get_nowait
  | some x => (some x, q2)

/-- Source `SafeQueue.get_batch(n)`: up to `n` items off the ring, stopping at
the first `Empty`. -/
def SafeQueue.get_batch : Nat → SafeQueue α → List α × SafeQueue α
  | 0, q => ([], q)
  | n + 1, q =>
    match q.ring with
    | [] => ([], q)
    | x :: rest =>
      let (xs, q2) := SafeQueue.get_batch n { q with ring := rest }
      (x :: xs, q2)

/-- Phase 1 of `writeback_batch`: the `for item in buffer_copy` loop.
Successful puts increment `written`; on the first `Full` the current
item is appended back to the cleared buffer and the loop `break`s,
discarding the rest of `buffer_copy`. -/
def SafeQueue.wbDrainLoop (q : SafeQueue α) (written : Nat) :
    List α → Nat × SafeQueue α
  | [] => (written, q)
  | x :: rest =>
    match q.put_nowait x with
    | some q2 => SafeQueue.wbDrainLoop q2 (written + 1) rest
    | none => (written, { q with writeback := q.writeback ++ [x] })

/-- Phase 2 of `writeback_batch`: the `for item in items` loop.  Items
that hit `Full` are appended to the buffer and the loop continues. -/
def SafeQueue.wbNewLoop (q : SafeQueue α) (written : Nat) :
    List α → Nat × SafeQueue α
  | [] => (written, q)
  | x :: rest =>
    match q.put_nowait x with
    | some q2 => SafeQueue.wbNewLoop q2 (written + 1) rest
    | none => SafeQueue.wbNewLoop { q with writeback := q.writeback ++ [x] } written rest

/-- The `with self._lock` block of `writeback_batch`: when the buffer is
non-empty, copy it, clear it and run phase 1 over the copy. -/
def SafeQueue.wbPhase1 (q : SafeQueue α) : Nat × SafeQueue α :=
  match q.writeback with
  | [] => (0, q)
  | buf => SafeQueue.wbDrainLoop { q with writeback := [] } 0 buf

/-- Source `SafeQueue.writeback_batch(items)`: first re-inject the pre-existing
buffer (phase 1), then the new items (phase 2); returns the number of
items that reached the ring. -/
def SafeQueue.writeback_batch (items : List α) (q : SafeQueue α) :
    Nat × SafeQueue α :=
  SafeQueue.wbNewLoop q.wbPhase1.2 q.wbPhase1.1 items

/-- Source `SafeQueue.task_done`.  (Python raises `ValueError` when called more
often than items were put; no claim exercises that path, so the counter
is truncated at zero.) -/
def SafeQueue.task_done (q : SafeQueue α) : SafeQueue α :=
  { q with unfinished := q.unfinished - 1 }

/-- Source `SafeQueue.empty`: ring empty and writeback buffer empty. -/
def SafeQueue.isEmptyQ (q : SafeQueue α) : Bool :=
  q.ring.isEmpty && q.writeback.isEmpty

/-- Source `SafeQueue.fill_percentage`:
`total / maxsize if maxsize > 0 else 0.0`, over `ℚ`. -/
def SafeQueue.fill_percentage (q : SafeQueue α) : ℚ :=
  let total : ℚ := (q.ring.length : ℚ) + (q.writeback.length : ℚ)
  if 0 < q.maxsize then total / (q.maxsize : ℚ) else 0

/-- One public queue operation, for stating whole-trace invariants. -/
inductive QOp (α : Type) where
  | add (x : α)
  | get
  | get_batch (n : Nat)
  | writeback (items : List α)
  | task_done

/-- Apply one operation to the queue state (outputs discarded). -/
def applyOp (q : SafeQueue α) : QOp α → SafeQueue α
  | .add x => (q.add x).2
  | .get => q.get.2
  | .get_batch n => (SafeQueue.get_batch n q).2
  | .writeback items => (SafeQueue.writeback_batch items q).2
  | .task_done => q.task_done

/-- Apply a sequence of operations. -/
def applyOps (q : SafeQueue α) (ops : List (QOp α)) : SafeQueue α :=
  ops.foldl applyOp q

/-! ## Drain worker (async_processing/drain_worker.py) -/

/-- Uniform result record of the send adapters (server/primary.py,
server/fallback.py): `status_code = none` models a transport
exception. -/
structure SendResult where
  success : Bool
  status_code : Option Nat
  is_failure : Bool
  is_unavailable : Bool
deriving DecidableEq

/-- Source `primary.send`: partition of the response status; a
`requests.RequestException` (modelled by `none`) yields the transport
record. -/
def primary_send (resp : Option Nat) : SendResult :=
  match resp with
  | some status =>
    { success := decide (200 ≤ status ∧ status < 300)
      status_code := some status
      is_failure := decide (300 ≤ status ∧ status ≤ 500)
      is_unavailable := decide (500 < status) }
  | none =>
    { success := false, status_code := none
      is_failure := false, is_unavailable := true }

/-- Source `fallback.send`: same status partition as `primary.send` (the gzip
JSONL encoding does not affect the result record). -/
def fallback_send (resp : Option Nat) : SendResult :=
  match resp with
  | some status =>
    { success := decide (200 ≤ status ∧ status < 300)
      status_code := some status
      is_failure := decide (300 ≤ status ∧ status ≤ 500)
      is_unavailable := decide (500 < status) }
  | none =>
    { success := false, status_code := none
      is_failure := false, is_unavailable := true }

/-- Exactly one of the three outcome flags is set. -/
def oneOfThree (r : SendResult) : Bool :=
  (if r.success then 1 else 0) + (if r.is_failure then 1 else 0)
    + (if r.is_unavailable then 1 else 0) == 1

/-- The environment one drain iteration observes: whether
`_wait_for_healthy_server` succeeded, and the fallback send result for
the batch (consulted only when the batch is non-empty). -/
structure DrainEnv where
  healthy : Bool
  send : SendResult
deriving DecidableEq

/-- Outcome of one iteration of `_drain_loop`'s `while` loop. -/
inductive DrainOutcome (α : Type) where
  /-- Source `fill_percentage() > 0.10` failed: the `while` loop exits. -/
  | exitFillLow
  /-- the fallback never became healthy: `break`. -/
  | exitUnreachable
  /-- the loop continues with the given queue state; `slept` records
  whether a `time.sleep(0.1)` happened on this path. -/
  | continueLoop (slept : Bool) (q : SafeQueue α)
deriving DecidableEq

/-- Source `for _ in items: queue.task_done()`. -/
def taskDoneN (q : SafeQueue α) : Nat → SafeQueue α
  | 0 => q
  | n + 1 => taskDoneN q.task_done n

/-- One iteration of `DrainWorker._drain_loop` (lines 89-155): the
`while fill_percentage > 0.10` guard, the health wait, a batch of at
most 100 items, and the three send outcomes.  An *empty* batch sleeps
100 ms and `continue`s — it does not exit the loop. -/
def drain_iteration (env : DrainEnv) (q : SafeQueue α) : DrainOutcome α :=
  if ¬(q.fill_percentage > 1/10) then .exitFillLow
  else if !env.healthy then .exitUnreachable
  else
    let items := (SafeQueue.get_batch 100 q).1
    let q1 := (SafeQueue.get_batch 100 q).2
    if items.isEmpty then .continueLoop true q1
    else if env.send.success then .continueLoop false (taskDoneN q1 items.length)
    else if env.send.is_unavailable then
      .continueLoop true (SafeQueue.writeback_batch items q1).2
    else .continueLoop false (taskDoneN q1 items.length)

/-! ## Drain-worker lifecycle (DrainWorker.start_if_needed and the
`finally` block of `_drain_loop`)

Thread identity is abstracted to counts: `active` counts spawned drain
threads that are still inside the `try` of `_drain_loop`, `winding`
counts threads that have executed the `finally` block (resetting
`_is_running` under the lock) but have not yet terminated — the final
`logger.debug` call and the function return happen after the lock is
released, so such a thread is still `is_alive()`.  In every reachable
state the most recently spawned thread is the active one whenever
`running` is set, so `_worker_thread.is_alive()` is modelled as
`0 < active + winding`. -/

structure DrainCtl where
  running : Bool
  active : Nat
  winding : Nat
deriving DecidableEq

/-- The initial `DrainWorker` state: `_is_running = False`, no thread. -/
def initCtl : DrainCtl := { running := false, active := 0, winding := 0 }

/-- Events observed by the lifecycle: a `start_if_needed` call seeing
the given fill percentage, a drain thread running its `finally` block,
and a winding-down thread terminating. -/
inductive DrainEvent where
  | spawn (fill : ℚ)
  | finish
  | die

/-- One atomic step.  `spawn` follows `start_if_needed` (lines 51-73):
only when `fill ≥ 0.90` and not (`_is_running` and the last thread is
alive) is a new thread started; otherwise the call is a no-op.
`finish` is the lock-protected `_is_running = False` of the `finally`
block; `die` is the later thread termination. -/
def drain_step (c : DrainCtl) : DrainEvent → DrainCtl
  | .spawn fill =>
    if 9/10 ≤ fill ∧ ¬(c.running = true ∧ 0 < c.active + c.winding) then
      { c with running := true, active := c.active + 1 }
    else c
  | .finish =>
    if 0 < c.active then
      { running := false, active := c.active - 1, winding := c.winding + 1 }
    else c
  | .die => { c with winding := c.winding - 1 }

/-- Run a sequence of lifecycle events. -/
def applyEvents (c : DrainCtl) (evs : List DrainEvent) : DrainCtl :=
  evs.foldl drain_step c

/-! ## `AsyncProcessor.submit` (processor.py, lines 297-313) -/

/-- Source `submit(pipelines, payload)`: `queue.add`, and on success a
`drain_worker.start_if_needed()` call observing the new fill level.  The
returned boolean is exactly the result of `add`. -/
def submit (q : SafeQueue α) (ctl : DrainCtl) (x : α) :
    Bool × SafeQueue α × DrainCtl :=
  let success := (q.add x).1
  let q1 := (q.add x).2
  if success then (success, q1, drain_step ctl (.spawn q1.fill_percentage))
  else (success, q1, ctl)

/-! ## Worker routing and the sidecar latch (processor.py, echopost/binary.py) -/

/-- Where `_worker_loop` routes one dequeued event. -/
inductive Route where
  | primary
  | fallbackSend
  | writebackWait
  | sidecar
deriving DecidableEq

/-- Outcome of the sidecar path inside `_send_to_echopost`:
`start_if_socket_not_exists` returned `False`; the gRPC send returned
`True`; it returned `False`; or an exception was raised. -/
inductive SidecarOutcome where
  | startFailed
  | sendOk
  | sendFailed
  | raisedExn
deriving DecidableEq

/-- Source `_send_to_echopost` (lines 255-295): the latch `echopost_disabled`
after the call.  Only a successful send leaves it unchanged; a start
failure, a failed send, or an exception sets it to `True`.  Nothing in
the processor ever sets it back to `False`. -/
def send_to_echopost (disabled : Bool) : SidecarOutcome → Bool
  | .sendOk => disabled
  | .startFailed => true
  | .sendFailed => true
  | .raisedExn => true

/-- What one `_worker_loop` iteration observes: the two health-monitor
reads and, when the sidecar path runs, its outcome. -/
structure WorkerEnv where
  primaryUp : Bool
  fallbackUp : Bool
  sidecar : SidecarOutcome

/-- One iteration of `_worker_loop` (lines 106-119) for a dequeued item:
the route taken and the latch afterwards.  The sidecar path is entered
only when the primary is down and `echopost_disabled` is false. -/
def worker_iteration (env : WorkerEnv) (disabled : Bool) : Route × Bool :=
  if env.primaryUp then (.primary, disabled)
  else if disabled then
    if env.fallbackUp then (.fallbackSend, disabled) else (.writebackWait, disabled)
  else (.sidecar, send_to_echopost disabled env.sidecar)

/-- Iterate the worker loop, collecting the route of every processed
event and the final latch value. -/
def worker_run (disabled : Bool) : List WorkerEnv → List Route × Bool
  | [] => ([], disabled)
  | env :: rest =>
    ((worker_iteration env disabled).1
        :: (worker_run (worker_iteration env disabled).2 rest).1,
      (worker_run (worker_iteration env disabled).2 rest).2)

/-- Outcome of the binary download in `ensure_binary_exists`
(echopost/binary.py, lines 70-115). -/
inductive DownloadOutcome where
  | ok
  | httpError
  | networkError
  | otherError
deriving DecidableEq

/-- The process-wide `ResolvedConfig.force_disable_echopost` latch after
`ensure_binary_exists`: a `URLError` (network error) or any unexpected
exception sets it; an HTTP error or a successful download leaves it. -/
def force_after (force : Bool) : DownloadOutcome → Bool
  | .networkError => true
  | .otherError => true
  | .ok => force
  | .httpError => force

/-- Source `ResolvedConfig._apply_overrides` (utils/config/resolved.py, lines
37-40): the resolved `echopost_disable` is forced to `True` when the
process-wide latch or the construction override is set. -/
def resolved_disable (force base : Bool) : Bool := force || base

/-- Source `Logger.__init__` ordering (main.py): the config is resolved
(line 44) *before* `ensure_binary_exists` runs (line 72), and the
processor is then constructed from that earlier config dict (line 111).
Given the force latch as it stood before the download attempt, the
construction override, and the download outcome, this returns the
processor's initial `echopost_disabled` and the force latch after the
download.  The download outcome cannot reach the already-resolved
config, so the processor's initial latch ignores it. -/
def logger_init_disabled (forceBefore base : Bool) (download : DownloadOutcome) :
    Bool × Bool :=
  (resolved_disable forceBefore base, force_after forceBefore download)

/-! ## Concrete instances used by witnesses and counterexamples -/

/-- An oracle for which every pattern is valid and nothing matches. -/
def Rfalse : ReOracle := { raises := fun _ => false, rmatches := fun _ _ => false }

/-- An oracle under which `^debug-` behaves as Python `re` does on the
spec's scenario-6 strings: it matches exactly the strings that start
with `debug-`. -/
def Rdebug : ReOracle :=
  { raises := fun _ => false
    rmatches := fun p s => p == "^debug-" && "debug-".toList.isPrefixOf s.toList }

/-- An oracle whose every pattern raises `re.error`. -/
def Rraise : ReOracle := { raises := fun _ => true, rmatches := fun _ _ => false }

/-- The spec's scenario-6 condition:
`{type: REGEX, value: "^debug-", negate: true}` on key `message`. -/
def cNegRegex : Condition :=
  { key := "message", type := .REGEX, negate := true, value := "^debug-" }

/-- A one-group rule table: an any-match clause with the single
condition `cNegRegex`, action `{stdout: true, pipelines: {p1}}`. -/
def wras : List RuleAction :=
  [{ action := { stdout := true, pipelines := {"p1"} }
     rules := [{ any_condition_match := true, conditions := [cNegRegex] }] }]

/-- A payload whose `message` does not start with `debug-`. -/
def wlog : List (String × Value) := [("message", .str "error-ping")]

/-- A rule table whose single REGEX condition is consulted during
evaluation (its key is present in the payload), so a raising oracle
makes evaluation raise. -/
def wras5 : List RuleAction :=
  [{ action := { stdout := false, pipelines := {"p2"} }
     rules := [{ any_condition_match := true
                 conditions := [{ key := "message", type := .REGEX
                                  negate := false, value := "(" }] }] }]

/-- Operations preparing a capacity-1 queue whose ring is empty and
whose writeback buffer holds `[1, 2, 3]`: fill the ring, write back
three items (all spill to the buffer), then pop the ring. -/
def opsLost : List (QOp Nat) := [.add 10, .writeback [1, 2, 3], .get_batch 1]

/-- The prepared queue: ring `[]`, writeback buffer `[1, 2, 3]`. -/
def qPre : SafeQueue Nat := applyOps (mkSafeQueue Nat 1) opsLost

/-- The drain-iteration counterexample state: capacity 4, empty ring,
one writeback item — fill 1/4 exceeds the 0.10 low watermark while the
ring yields an empty batch. -/
def dq0 : SafeQueue Nat := { maxsize := 4, ring := [], writeback := [5], unfinished := 1 }

/-- A drain environment with a healthy fallback and a 200 send result. -/
def denv : DrainEnv := { healthy := true, send := fallback_send (some 200) }

/-! ## Lemmas about the rule engine -/

/-- Reduction of the `Except` bind on a success value. -/
@[simp] lemma ok_bind {ε α β : Type} (a : α) (f : α → Except ε β) :
    (Except.ok a >>= f : Except ε β) = f a := rfl

/-- When no pattern raises, `match_condition` is total and agrees with
its pure counterpart. -/
lemma match_condition_ok (R : ReOracle) (v : Option Value) (c : Condition)
    (hR : ∀ p, R.raises p = false) :
    match_condition R v c = .ok (match_conditionB R v c) := by
  cases v with
  | none => rfl
  | some w =>
    cases hty : c.type <;>
      simp [match_condition, match_conditionB, re_match, hR, hty] <;>
      cases hneg : c.negate <;> simp [hneg, ok_bind]

/-- When no pattern raises, the condition loop computes the any/all
semantics of the clause. -/
lemma condLoop_ok (R : ReOracle) (log : List (String × Value)) (anyFlag : Bool)
    (l : List Condition) (hR : ∀ p, R.raises p = false) :
    condLoop R log anyFlag l =
      .ok (if anyFlag then l.any (condHolds R log) else l.all (condHolds R log)) := by
  induction l with
  | nil => cases anyFlag <;> simp [condLoop]
  | cons c rest ih =>
    have hmc : match_condition R (get_nested_value log c.key) c
        = .ok (condHolds R log c) :=
      match_condition_ok R _ c hR
    cases anyFlag <;> cases h : condHolds R log c <;>
      simp [condLoop, hmc, h, ih, ok_bind]

/-- When no pattern raises, one group's rule loop adds the action's
pipelines and stdout flag iff some clause of the group is true. -/
lemma groupLoop_ok (R : ReOracle) (log : List (String × Value)) (act : Action)
    (l : List Rule) (hR : ∀ p, R.raises p = false) :
    ∀ acc : Finset String × Bool,
      groupLoop R log act acc l =
        .ok (if l.any (clauseTrue R log) then
              (acc.1 ∪ act.pipelines, acc.2 || act.stdout)
             else acc) := by
  induction l with
  | nil => intro acc; simp [groupLoop]
  | cons rule rest ih =>
    intro acc
    have hcl : condLoop R log rule.any_condition_match rule.conditions
        = .ok (clauseTrue R log rule) := by
      rw [condLoop_ok R log _ _ hR, clauseTrue]
    cases h : clauseTrue R log rule with
    | true =>
      simp only [groupLoop, hcl, ok_bind, h, if_true, List.any_cons,
        Bool.true_or, ih]
      by_cases h2 : rest.any (clauseTrue R log) = true <;>
        simp [h2, Finset.union_assoc, Bool.or_assoc]
    | false =>
      simp [groupLoop, hcl, h, ih, ok_bind]

/-- When no pattern raises, the outer loop computes the union of the
triggered groups' pipelines and the OR of their stdout flags. -/
lemma actionsLoop_ok (R : ReOracle) (log : List (String × Value))
    (l : List RuleAction) (hR : ∀ p, R.raises p = false) :
    ∀ acc : Finset String × Bool,
      actionsLoop R log acc l =
        .ok (acc.1 ∪ specPipes R log l, acc.2 || specStdout R log l) := by
  induction l with
  | nil => intro acc; simp [actionsLoop, specPipes, specStdout]
  | cons ra rest ih =>
    intro acc
    have hg := groupLoop_ok R log ra.action ra.rules hR acc
    rw [show ra.rules.any (clauseTrue R log) = groupTriggered R log ra from rfl] at hg
    cases h : groupTriggered R log ra with
    | true =>
      simp only [actionsLoop, hg, h, if_true, ok_bind, ih]
      simp [specPipes, specStdout, h, Finset.union_assoc, Bool.or_assoc]
    | false =>
      simp only [actionsLoop, hg, h, if_false, ok_bind, ih]
      simp [specPipes, specStdout, h]

/-! ## Lemmas about the queue -/

/-- The ring-bound invariant: a bounded queue's ring never exceeds its
capacity. -/
def RingOk (q : SafeQueue α) : Prop := 0 < q.maxsize → q.ring.length ≤ q.maxsize

/-- A successful `put_nowait` keeps everything but the ring and the
counter, and its ring respects the bound. -/
lemma put_nowait_some {q q2 : SafeQueue α} {x : α}
    (h : q.put_nowait x = some q2) :
    q2.maxsize = q.maxsize ∧ q2.ring = q.ring ++ [x] ∧
      q2.writeback = q.writeback ∧ RingOk q2 := by
  by_cases hc : 0 < q.maxsize ∧ q.maxsize ≤ q.ring.length
  · simp [SafeQueue.put_nowait, hc] at h
  · simp only [SafeQueue.put_nowait, if_neg hc, Option.some.injEq] at h
    subst h
    refine ⟨rfl, rfl, rfl, fun hpos => ?_⟩
    have hpos2 : 0 < q.maxsize := hpos
    have hlt : q.ring.length < q.maxsize := by
      by_contra hge
      exact hc ⟨hpos2, Nat.le_of_not_lt hge⟩
    show (q.ring ++ [x]).length ≤ q.maxsize
    rw [List.length_append]
    simp only [List.length_cons, List.length_nil]
    omega

/-- Source `drainLoop` preserves the capacity and the ring bound. -/
lemma drainLoop_ok (l : List α) :
    ∀ q : SafeQueue α, RingOk q →
      (SafeQueue.drainLoop q l).maxsize = q.maxsize ∧ RingOk (SafeQueue.drainLoop q l) := by
  induction l with
  | nil => intro q h; exact ⟨rfl, h⟩
  | cons x rest ih =>
    intro q h
    cases hp : q.put_nowait x with
    | some q2 =>
      obtain ⟨hm, -, -, hok⟩ := put_nowait_some hp
      have h2 := ih q2 hok
      have he : SafeQueue.drainLoop q (x :: rest) = SafeQueue.drainLoop q2 rest := by
        simp [SafeQueue.drainLoop, hp]
      rw [he]
      exact ⟨h2.1.trans hm, h2.2⟩
    | none =>
      have he : SafeQueue.drainLoop q (x :: rest)
          = { q with writeback := q.writeback ++ [x] } := by
        simp [SafeQueue.drainLoop, hp]
      rw [he]
      exact ⟨rfl, h⟩

/-- Source `try_drain_writeback` preserves the capacity and the ring bound. -/
lemma try_drain_ok (q : SafeQueue α) (h : RingOk q) :
    q.try_drain_writeback.maxsize = q.maxsize ∧ RingOk q.try_drain_writeback := by
  cases hw : q.writeback with
  | nil =>
    have he : q.try_drain_writeback = q := by
      simp [SafeQueue.try_drain_writeback, hw]
    rw [he]; exact ⟨rfl, h⟩
  | cons b bs =>
    have he : q.try_drain_writeback
        = SafeQueue.drainLoop { q with writeback := [] } (b :: bs) := by
      simp [SafeQueue.try_drain_writeback, hw]
    have h2 : RingOk ({ q with writeback := [] } : SafeQueue α) := h
    rw [he]
    exact drainLoop_ok (b :: bs) _ h2

/-- Source `get_nowait` preserves the capacity and the ring bound. -/
lemma get_nowait_ok (q : SafeQueue α) (h : RingOk q) :
    q.get_nowait.2.maxsize = q.maxsize ∧ RingOk q.get_nowait.2 := by
  cases hr : q.ring with
  | nil =>
    have he : q.get_nowait = (none, q) := by simp [SafeQueue.get_nowait, hr]
    rw [he]; exact ⟨rfl, h⟩
  | cons x rest =>
    have he : q.get_nowait = (some x, { q with ring := rest }) := by
      simp [SafeQueue.get_nowait, hr]
    rw [he]
    refine ⟨rfl, fun hpos => ?_⟩
    have hpos2 : 0 < q.maxsize := hpos
    have h2 := h hpos2
    rw [hr] at h2
    simp only [List.length_cons] at h2
    show rest.length ≤ q.maxsize
    omega

/-- Source `get` preserves the capacity and the ring bound. -/
lemma get_ok (q : SafeQueue α) (h : RingOk q) :
    q.get.2.maxsize = q.maxsize ∧ RingOk q.get.2 := by
  obtain ⟨h1, h2⟩ := get_nowait_ok q h
  obtain ⟨h3, h4⟩ := try_drain_ok _ h2
  cases hi : q.get_nowait.1 with
  | none =>
    obtain ⟨h5, h6⟩ := get_nowait_ok _ h4
    have he : q.get.2 = q.get_nowait.2.try_drain_writeback.get_nowait.2 := by
      simp [SafeQueue.get, hi]
    rw [he]
    exact ⟨(h5.trans h3).trans h1, h6⟩
  | some x =>
    have he : q.get.2 = q.get_nowait.2.try_drain_writeback := by
      simp [SafeQueue.get, hi]
    rw [he]
    exact ⟨h3.trans h1, h4⟩

/-- Source `get_batch` preserves the capacity and the ring bound. -/
lemma get_batch_ok (n : Nat) :
    ∀ q : SafeQueue α, RingOk q →
      (SafeQueue.get_batch n q).2.maxsize = q.maxsize ∧
        RingOk (SafeQueue.get_batch n q).2 := by
  induction n with
  | zero => intro q h; exact ⟨rfl, h⟩
  | succ m ih =>
    intro q h
    cases hr : q.ring with
    | nil =>
      have he : SafeQueue.get_batch (m + 1) q = ([], q) := by
        simp [SafeQueue.get_batch, hr]
      rw [he]; exact ⟨rfl, h⟩
    | cons x rest =>
      have h2 : RingOk ({ q with ring := rest } : SafeQueue α) := by
        intro hpos
        have h3 := h hpos
        rw [hr] at h3
        simp only [List.length_cons] at h3
        show rest.length ≤ q.maxsize
        omega
      have h4 := ih { q with ring := rest } h2
      have he : (SafeQueue.get_batch (m + 1) q).2
          = (SafeQueue.get_batch m { q with ring := rest }).2 := by
        simp [SafeQueue.get_batch, hr]
      rw [he]
      exact h4

/-- The batch never exceeds the requested size. -/
lemma get_batch_length_le (n : Nat) :
    ∀ q : SafeQueue α, (SafeQueue.get_batch n q).1.length ≤ n := by
  induction n with
  | zero => intro q; simp [SafeQueue.get_batch]
  | succ m ih =>
    intro q
    cases hr : q.ring with
    | nil =>
      have he : SafeQueue.get_batch (m + 1) q = ([], q) := by
        simp [SafeQueue.get_batch, hr]
      rw [he]; simp
    | cons x rest =>
      have he : (SafeQueue.get_batch (m + 1) q).1
          = x :: (SafeQueue.get_batch m { q with ring := rest }).1 := by
        simp [SafeQueue.get_batch, hr]
      rw [he]
      simp only [List.length_cons]
      exact Nat.succ_le_succ (ih _)

/-- Phase 1 of `writeback_batch` preserves capacity and ring bound. -/
lemma wbDrainLoop_ok (l : List α) :
    ∀ (q : SafeQueue α) (w : Nat), RingOk q →
      (SafeQueue.wbDrainLoop q w l).2.maxsize = q.maxsize ∧
        RingOk (SafeQueue.wbDrainLoop q w l).2 := by
  induction l with
  | nil => intro q w h; exact ⟨rfl, h⟩
  | cons x rest ih =>
    intro q w h
    cases hp : q.put_nowait x with
    | some q2 =>
      obtain ⟨hm, -, -, hok⟩ := put_nowait_some hp
      have h2 := ih q2 (w + 1) hok
      have he : SafeQueue.wbDrainLoop q w (x :: rest)
          = SafeQueue.wbDrainLoop q2 (w + 1) rest := by
        simp [SafeQueue.wbDrainLoop, hp]
      rw [he]
      exact ⟨h2.1.trans hm, h2.2⟩
    | none =>
      have he : SafeQueue.wbDrainLoop q w (x :: rest)
          = (w, { q with writeback := q.writeback ++ [x] }) := by
        simp [SafeQueue.wbDrainLoop, hp]
      rw [he]
      exact ⟨rfl, h⟩

/-- Phase 2 of `writeback_batch` preserves capacity and ring bound. -/
lemma wbNewLoop_ok (l : List α) :
    ∀ (q : SafeQueue α) (w : Nat), RingOk q →
      (SafeQueue.wbNewLoop q w l).2.maxsize = q.maxsize ∧
        RingOk (SafeQueue.wbNewLoop q w l).2 := by
  induction l with
  | nil => intro q w h; exact ⟨rfl, h⟩
  | cons x rest ih =>
    intro q w h
    cases hp : q.put_nowait x with
    | some q2 =>
      obtain ⟨hm, -, -, hok⟩ := put_nowait_some hp
      have h2 := ih q2 (w + 1) hok
      have he : SafeQueue.wbNewLoop q w (x :: rest)
          = SafeQueue.wbNewLoop q2 (w + 1) rest := by
        simp [SafeQueue.wbNewLoop, hp]
      rw [he]
      exact ⟨h2.1.trans hm, h2.2⟩
    | none =>
      have h2 : RingOk ({ q with writeback := q.writeback ++ [x] } : SafeQueue α) := h
      have h3 := ih { q with writeback := q.writeback ++ [x] } w h2
      have he : SafeQueue.wbNewLoop q w (x :: rest)
          = SafeQueue.wbNewLoop { q with writeback := q.writeback ++ [x] } w rest := by
        simp [SafeQueue.wbNewLoop, hp]
      rw [he]
      exact h3

/-- Phase 1 as a whole preserves capacity and ring bound. -/
lemma wbPhase1_ok (q : SafeQueue α) (h : RingOk q) :
    q.wbPhase1.2.maxsize = q.maxsize ∧ RingOk q.wbPhase1.2 := by
  cases hw : q.writeback with
  | nil =>
    have he : q.wbPhase1 = (0, q) := by simp [SafeQueue.wbPhase1, hw]
    rw [he]; exact ⟨rfl, h⟩
  | cons b bs =>
    have he : q.wbPhase1 = SafeQueue.wbDrainLoop { q with writeback := [] } 0 (b :: bs) := by
      simp [SafeQueue.wbPhase1, hw]
    have h2 : RingOk ({ q with writeback := [] } : SafeQueue α) := h
    rw [he]
    exact wbDrainLoop_ok (b :: bs) _ 0 h2

/-- Source `writeback_batch` preserves capacity and ring bound. -/
lemma writeback_batch_ok (items : List α) (q : SafeQueue α) (h : RingOk q) :
    (SafeQueue.writeback_batch items q).2.maxsize = q.maxsize ∧
      RingOk (SafeQueue.writeback_batch items q).2 := by
  obtain ⟨h1, h2⟩ := wbPhase1_ok q h
  obtain ⟨h3, h4⟩ := wbNewLoop_ok items q.wbPhase1.2 q.wbPhase1.1 h2
  exact ⟨h3.trans h1, h4⟩

/-- Source `add` preserves capacity and ring bound. -/
lemma add_ok (q : SafeQueue α) (x : α) (h : RingOk q) :
    (q.add x).2.maxsize = q.maxsize ∧ RingOk (q.add x).2 := by
  cases hp : q.put_nowait x with
  | some q2 =>
    obtain ⟨hm, -, -, hok⟩ := put_nowait_some hp
    have he : q.add x = (true, q2) := by simp [SafeQueue.add, hp]
    rw [he]
    exact ⟨hm, hok⟩
  | none =>
    have he : q.add x = (false, q) := by simp [SafeQueue.add, hp]
    rw [he]
    exact ⟨rfl, h⟩

/-- Every queue operation preserves capacity and ring bound. -/
lemma applyOp_ok (q : SafeQueue α) (op : QOp α) (h : RingOk q) :
    (applyOp q op).maxsize = q.maxsize ∧ RingOk (applyOp q op) := by
  cases op with
  | add x => exact add_ok q x h
  | get => exact get_ok q h
  | get_batch n => exact get_batch_ok n q h
  | writeback items => exact writeback_batch_ok items q h
  | task_done => exact ⟨rfl, h⟩

/-- Every operation sequence preserves capacity and ring bound. -/
lemma applyOps_ok (ops : List (QOp α)) :
    ∀ q : SafeQueue α, RingOk q →
      (applyOps q ops).maxsize = q.maxsize ∧ RingOk (applyOps q ops) := by
  induction ops with
  | nil => intro q h; exact ⟨rfl, h⟩
  | cons op rest ih =>
    intro q h
    obtain ⟨h1, h2⟩ := applyOp_ok q op h
    have h3 := ih (applyOp q op) h2
    have he : applyOps q (op :: rest) = applyOps (applyOp q op) rest := rfl
    rw [he]
    exact ⟨h3.1.trans h1, h3.2⟩

/-! ## Lemmas about the drain-worker lifecycle -/

/-- A `spawn` whose guard holds registers a new running thread. -/
lemma drain_step_spawn_of (c : DrainCtl) (fill : ℚ)
    (h : 9/10 ≤ fill ∧ ¬(c.running = true ∧ 0 < c.active + c.winding)) :
    drain_step c (.spawn fill) = { c with running := true, active := c.active + 1 } := by
  simp only [drain_step, if_pos h]

/-- A `spawn` whose guard fails is a no-op. -/
lemma drain_step_spawn_not (c : DrainCtl) (fill : ℚ)
    (h : ¬(9/10 ≤ fill ∧ ¬(c.running = true ∧ 0 < c.active + c.winding))) :
    drain_step c (.spawn fill) = c := by
  simp only [drain_step, if_neg h]

/-- The strengthened lifecycle invariant: at most one thread is inside
its drain loop, and none is while the running flag is clear. -/
def CtlInv (c : DrainCtl) : Prop :=
  c.active ≤ 1 ∧ (c.running = false → c.active = 0)

/-- Every lifecycle step preserves the invariant. -/
lemma drain_step_inv (c : DrainCtl) (e : DrainEvent) (h : CtlInv c) :
    CtlInv (drain_step c e) := by
  obtain ⟨h1, h2⟩ := h
  cases e with
  | spawn fill =>
    by_cases hg : 9/10 ≤ fill ∧ ¬(c.running = true ∧ 0 < c.active + c.winding)
    · rw [drain_step_spawn_of c fill hg]
      have hact : c.active = 0 := by
        cases hr : c.running with
        | false => exact h2 hr
        | true =>
          by_contra hne
          exact hg.2 ⟨hr, by omega⟩
      constructor
      · show c.active + 1 ≤ 1
        omega
      · intro hfalse
        exact absurd hfalse (by simp)
    · rw [drain_step_spawn_not c fill hg]
      exact ⟨h1, h2⟩
  | finish =>
    by_cases ha : 0 < c.active
    · have he : drain_step c .finish
          = { running := false, active := c.active - 1, winding := c.winding + 1 } := by
        simp [drain_step, ha]
      rw [he]
      refine ⟨?_, fun _ => ?_⟩
      · show c.active - 1 ≤ 1
        omega
      · show c.active - 1 = 0
        omega
    · have he : drain_step c .finish = c := by simp [drain_step, ha]
      rw [he]
      exact ⟨h1, h2⟩
  | die => exact ⟨h1, h2⟩

/-- The invariant holds along every reachable trace. -/
lemma applyEvents_inv (tr : List DrainEvent) :
    ∀ c : DrainCtl, CtlInv c → CtlInv (applyEvents c tr) := by
  induction tr with
  | nil => intro c h; exact h
  | cons e rest ih =>
    intro c h
    exact ih (drain_step c e) (drain_step_inv c e h)

/-! ## Lemmas about the worker loop and the sidecar latch -/

/-- With the latch set, one worker iteration leaves it set. -/
lemma worker_iteration_latch_kept (env : WorkerEnv) :
    (worker_iteration env true).2 = true := by
  rcases env with ⟨pu, fu, sc⟩
  cases pu <;> cases fu <;> simp [worker_iteration]

/-- With the latch set, one worker iteration never takes the sidecar
route. -/
lemma worker_iteration_no_sidecar (env : WorkerEnv) :
    (worker_iteration env true).1 ≠ .sidecar := by
  rcases env with ⟨pu, fu, sc⟩
  cases pu <;> cases fu <;> simp [worker_iteration]

/-- With the latch set, a whole worker run keeps it set and routes no
event to the sidecar. -/
lemma worker_run_latched (envs : List WorkerEnv) :
    (worker_run true envs).2 = true ∧ Route.sidecar ∉ (worker_run true envs).1 := by
  induction envs with
  | nil => simp [worker_run]
  | cons env rest ih =>
    have h2 := worker_iteration_latch_kept env
    have h1 := worker_iteration_no_sidecar env
    simp only [worker_run, h2]
    refine ⟨ih.1, ?_⟩
    intro hmem
    rcases List.mem_cons.mp hmem with hh | ht
    · exact h1 hh.symm
    · exact ih.2 ht

/-! ## Claims -/

/-- C1: the claim says `writeback_batch` retains every item that fails
to fit in the ring, so nothing is ever discarded.  The buffer-drain
phase of `writeback_batch` (queue.py, lines 109-120) violates this: on
the first `Full` it re-appends only the current item and `break`s,
silently dropping the rest of the cleared buffer copy.  Concretely, on a
capacity-1 queue whose buffer holds `[1, 2, 3]`, `writeback_batch([4])`
moves `1` to the ring, retains `2` (the item that hit `Full`) and the
new item `4`, and loses `3` entirely: it is neither in the ring nor in
the writeback buffer, and was never handed to a consumer.  The returned
count `1` correctly counts ring arrivals. -/
theorem writeback_batch_discards_items :
    qPre.ring = [] ∧ qPre.writeback = [1, 2, 3] ∧
    (SafeQueue.writeback_batch [4] qPre).1 = 1 ∧
    (SafeQueue.writeback_batch [4] qPre).2.ring = [1] ∧
    (SafeQueue.writeback_batch [4] qPre).2.writeback = [2, 4] ∧
    (3 : Nat) ∉ (SafeQueue.writeback_batch [4] qPre).2.ring
        ++ (SafeQueue.writeback_batch [4] qPre).2.writeback := by
  decide

/-- C2 (counterexample): the claim says a negated condition matches when
the looked-up value is `None`; but `match_condition` (engine.py, line
42) returns `False` *before* consulting `negate`, so the spec's
scenario-6 condition `{type: REGEX, value: "^debug-", negate: true}`
does **not** match a payload in which `message` is missing. -/
theorem match_condition_missing_key_counterexample :
    get_nested_value [] cNegRegex.key = none ∧
    cNegRegex.negate = true ∧
    match_condition Rdebug (get_nested_value [] cNegRegex.key) cNegRegex
      = .ok false ∧
    match_condition Rdebug (get_nested_value [] cNegRegex.key) cNegRegex
      ≠ .ok true :=
  ⟨rfl, rfl, rfl, fun h => Bool.noConfusion (Except.ok.inj h)⟩

/-- C2 (amended): when the value looked up at the condition's dotted key
path is `None` (any path segment absent or non-dict), matching yields
`False` regardless of the `negate` flag — the early `return False`
bypasses negation. -/
theorem match_condition_none_always_false (R : ReOracle)
    (log : List (String × Value)) (c : Condition)
    (h : get_nested_value log c.key = none) :
    match_condition R (get_nested_value log c.key) c = .ok false := by
  rw [h]
  rfl

/-- C2 (witness): the amended theorem applied to the missing-key
scenario. -/
theorem match_condition_none_always_false_witness :
    get_nested_value [] cNegRegex.key = none ∧
    match_condition Rdebug (get_nested_value [] cNegRegex.key) cNegRegex
      = .ok false :=
  ⟨rfl, match_condition_none_always_false Rdebug [] cNegRegex rfl⟩

/-- C3 (counterexample): for a status code below 200 (here 100) both
adapters produce a record in which none of `success`, `is_failure`,
`is_unavailable` is true, so "exactly one of the three flags is true for
every status code" fails. -/
theorem send_status_100_counterexample :
    oneOfThree (primary_send (some 100)) = false ∧
    oneOfThree (fallback_send (some 100)) = false ∧
    (primary_send (some 100)).success = false ∧
    (primary_send (some 100)).is_failure = false ∧
    (primary_send (some 100)).is_unavailable = false := by
  decide

/-- C3 (amended): for both adapters, `success` iff the status is in
[200,300), `is_failure` iff in [300,500], `is_unavailable` iff above 500
or a transport exception occurred (with `status_code` none in that
case); exactly one of the three holds whenever the status is at least
200 or an exception occurred — for a status below 200 all three flags
are false. -/
theorem send_result_partition (s : Option Nat) :
    fallback_send s = primary_send s ∧
    ((primary_send s).success = true ↔ ∃ c, s = some c ∧ 200 ≤ c ∧ c < 300) ∧
    ((primary_send s).is_failure = true ↔ ∃ c, s = some c ∧ 300 ≤ c ∧ c ≤ 500) ∧
    ((primary_send s).is_unavailable = true ↔
      (s = none ∨ ∃ c, s = some c ∧ 500 < c)) ∧
    (s = none → (primary_send s).status_code = none) ∧
    ((∀ c, s = some c → 200 ≤ c) → oneOfThree (primary_send s) = true) := by
  cases s with
  | none => simp [primary_send, fallback_send, oneOfThree]
  | some c =>
    refine ⟨rfl, by simp [primary_send], by simp [primary_send],
      by simp [primary_send], by simp, ?_⟩
    intro hge
    have h200 : 200 ≤ c := hge c rfl
    rcases Nat.lt_or_ge c 300 with h1 | h1
    · have e1 : decide (200 ≤ c ∧ c < 300) = true := by
        rw [decide_eq_true_eq]; omega
      have e2 : decide (300 ≤ c ∧ c ≤ 500) = false := by
        rw [decide_eq_false_iff_not]; omega
      have e3 : decide (500 < c) = false := by
        rw [decide_eq_false_iff_not]; omega
      simp [oneOfThree, primary_send, e1, e2, e3]
    · rcases Nat.lt_or_ge 500 c with h2 | h2
      · have e1 : decide (200 ≤ c ∧ c < 300) = false := by
          rw [decide_eq_false_iff_not]; omega
        have e2 : decide (300 ≤ c ∧ c ≤ 500) = false := by
          rw [decide_eq_false_iff_not]; omega
        have e3 : decide (500 < c) = true := by
          rw [decide_eq_true_eq]; omega
        simp [oneOfThree, primary_send, e1, e2, e3]
      · have e1 : decide (200 ≤ c ∧ c < 300) = false := by
          rw [decide_eq_false_iff_not]; omega
        have e2 : decide (300 ≤ c ∧ c ≤ 500) = true := by
          rw [decide_eq_true_eq]; omega
        have e3 : decide (500 < c) = false := by
          rw [decide_eq_false_iff_not]; omega
        simp [oneOfThree, primary_send, e1, e2, e3]

/-- C3 (witness): the partition theorem applied at status 404, whose
well-formedness hypothesis holds. -/
theorem send_result_partition_witness :
    oneOfThree (primary_send (some 404)) = true :=
  (send_result_partition (some 404)).2.2.2.2.2 (fun c hc => by cases hc; omega)

/-- C4: whenever no regex pattern raises, `evaluate_rules` returns
exactly the spec-side result: the union of the pipelines of every group
with at least one true clause together with the OR of those groups'
stdout flags, where an any-match clause is true iff at least one of its
conditions matches and an all-match clause iff every one matches. -/
theorem evaluate_rules_matches_spec (R : ReOracle)
    (log : List (String × Value)) (ras : Option (List RuleAction))
    (hR : ∀ p, R.raises p = false) :
    evaluate_rules R log ras = evalSpec R log ras := by
  cases ras with
  | none => rfl
  | some l =>
    by_cases hl : l = []
    · subst hl
      simp [evaluate_rules, evalTry, evalSpec, specPipes, specStdout]
    · have h := actionsLoop_ok R log l hR (∅, false)
      simp only [evaluate_rules, evalTry, if_neg hl, h, evalSpec]
      simp

/-- C4 (witness): the refinement theorem applied to a concrete oracle,
payload and one-group table. -/
theorem evaluate_rules_matches_spec_witness :
    (∀ p, Rdebug.raises p = false) ∧
    evaluate_rules Rdebug wlog (some wras) = evalSpec Rdebug wlog (some wras) :=
  ⟨fun _ => rfl, evaluate_rules_matches_spec Rdebug wlog (some wras) (fun _ => rfl)⟩

/-- C5: `evaluate_rules` contains every internal exception: whenever the
`try` body raises (modelled by `evalTry` returning an error), the
function returns the empty pipeline set and stdout `false` instead of
propagating. -/
theorem evaluate_rules_contains_errors (R : ReOracle)
    (log : List (String × Value)) (ras : Option (List RuleAction))
    (h : evalTry R log ras = .error ()) :
    evaluate_rules R log ras = (∅, false) := by
  simp [evaluate_rules, h]

/-- C5 (witness): with an oracle whose pattern raises `re.error`,
evaluation of a table whose REGEX condition is consulted raises, and
`evaluate_rules` returns `([], false)`. -/
theorem evaluate_rules_contains_errors_witness :
    evalTry Rraise wlog (some wras5) = .error () ∧
    evaluate_rules Rraise wlog (some wras5) = (∅, false) :=
  ⟨rfl, evaluate_rules_contains_errors Rraise wlog (some wras5) rfl⟩

/-- C6 (counterexample): the claim says an empty batch makes the drain
loop exit; in the code (drain_worker.py, lines 103-105) an empty batch
sleeps 100 ms and `continue`s.  Concretely, on a capacity-4 queue with
an empty ring and one writeback item, the fill is 1/4 > 0.10, the batch
is empty, and the iteration continues the loop rather than exiting. -/
theorem drain_empty_batch_counterexample :
    (SafeQueue.get_batch 100 dq0).1 = [] ∧
    dq0.fill_percentage > 1/10 ∧
    drain_iteration denv dq0 = .continueLoop true dq0 ∧
    drain_iteration denv dq0 ≠ .exitFillLow ∧
    drain_iteration denv dq0 ≠ .exitUnreachable := by
  have h1 : ¬¬(dq0.fill_percentage > 1/10) := by
    norm_num [SafeQueue.fill_percentage, dq0]
  have hmain : drain_iteration denv dq0 = .continueLoop true dq0 := by
    unfold drain_iteration
    rw [if_neg h1]
    decide
  refine ⟨rfl, not_not.mp h1, hmain, ?_, ?_⟩
  · rw [hmain]; exact fun h => nomatch h
  · rw [hmain]; exact fun h => nomatch h

/-- C6 (amended): the drain loop body runs only while the fill
percentage exceeds 0.10; each iteration takes a batch of at most 100
items; an empty batch sleeps 100 ms and re-checks the loop condition
(`continue`) instead of exiting. -/
theorem drain_iteration_amended :
    (∀ (env : DrainEnv) (q : SafeQueue Nat), ¬(q.fill_percentage > 1/10) →
        drain_iteration env q = .exitFillLow) ∧
    (∀ q : SafeQueue Nat, (SafeQueue.get_batch 100 q).1.length ≤ 100) ∧
    (∀ (env : DrainEnv) (q : SafeQueue Nat), q.fill_percentage > 1/10 →
        env.healthy = true → (SafeQueue.get_batch 100 q).1 = [] →
        drain_iteration env q
          = .continueLoop true (SafeQueue.get_batch 100 q).2) := by
  refine ⟨?_, ?_, ?_⟩
  · intro env q h
    unfold drain_iteration
    rw [if_pos h]
  · intro q
    exact get_batch_length_le 100 q
  · intro env q h1 h2 h3
    unfold drain_iteration
    rw [if_neg (not_not_intro h1)]
    simp [h2, h3]

/-- C6 (witness): the amended theorem applied to the concrete state. -/
theorem drain_iteration_amended_witness :
    dq0.fill_percentage > 1/10 ∧ denv.healthy = true ∧
    (SafeQueue.get_batch 100 dq0).1 = [] ∧
    drain_iteration denv dq0 = .continueLoop true (SafeQueue.get_batch 100 dq0).2 :=
  ⟨by norm_num [SafeQueue.fill_percentage, dq0], rfl, rfl,
    drain_iteration_amended.2.2 denv dq0
      (by norm_num [SafeQueue.fill_percentage, dq0]) rfl rfl⟩

/-- C7 (counterexample): the claim says at most one drain thread is
alive at any time.  But `_drain_loop`'s `finally` clears `_is_running`
under the lock *before* the thread terminates (it still logs and
returns afterwards), so a `start_if_needed` racing in that window spawns
a second thread while the first is still alive: after the events
`spawn (fill=1)`, `finish`, `spawn (fill=1)` two threads are alive. -/
theorem drain_two_alive_counterexample :
    (applyEvents initCtl [.spawn 1, .finish, .spawn 1]).active
      + (applyEvents initCtl [.spawn 1, .finish, .spawn 1]).winding = 2 := by
  have e1 : drain_step initCtl (.spawn 1)
      = { running := true, active := 1, winding := 0 } := by
    rw [drain_step_spawn_of initCtl 1 ⟨by norm_num, by decide⟩]
    rfl
  have e2 : drain_step { running := true, active := 1, winding := 0 } .finish
      = { running := false, active := 0, winding := 1 } := rfl
  have e3 : drain_step { running := false, active := 0, winding := 1 } (.spawn 1)
      = { running := true, active := 1, winding := 1 } := by
    rw [drain_step_spawn_of _ 1 ⟨by norm_num, by decide⟩]
  have he : applyEvents initCtl [.spawn 1, .finish, .spawn 1]
      = { running := true, active := 1, winding := 1 } := by
    show drain_step (drain_step (drain_step initCtl (.spawn 1)) .finish) (.spawn 1)
        = { running := true, active := 1, winding := 1 }
    rw [e1, e2, e3]
  rw [he]
  rfl

/-- C7 (amended): along every event trace at most one drain thread is
inside its drain loop, and `start_if_needed` spawns a new thread only
when the observed fill is at least 0.90 and no spawned thread is both
registered running and alive; transiently, a thread that has already
cleared the running flag in its `finally` block may still be alive
while its successor starts. -/
theorem drain_singleton_amended :
    (∀ tr : List DrainEvent, (applyEvents initCtl tr).active ≤ 1) ∧
    (∀ (c : DrainCtl) (fill : ℚ), drain_step c (.spawn fill) ≠ c →
        9/10 ≤ fill ∧ ¬(c.running = true ∧ 0 < c.active + c.winding)) := by
  constructor
  · intro tr
    exact (applyEvents_inv tr initCtl ⟨by decide, fun _ => rfl⟩).1
  · intro c fill hne
    by_cases hg : 9/10 ≤ fill ∧ ¬(c.running = true ∧ 0 < c.active + c.winding)
    · exact hg
    · exact absurd (drain_step_spawn_not c fill hg) hne

/-- C7 (witness): the amended theorem applied to a concrete trace and a
concrete spawning step. -/
theorem drain_singleton_amended_witness :
    (applyEvents initCtl [DrainEvent.spawn 1, DrainEvent.finish]).active ≤ 1 ∧
    (9/10 ≤ (1 : ℚ) ∧ ¬(initCtl.running = true ∧ 0 < initCtl.active + initCtl.winding)) :=
  ⟨drain_singleton_amended.1 _,
    drain_singleton_amended.2 initCtl 1 (by
      rw [drain_step_spawn_of initCtl 1 ⟨by norm_num, by decide⟩]
      decide)⟩

/-- C8 (counterexample): the claim says the ring never exceeds
`async_queue_size` and `add` returns false iff the ring is at capacity.
With `async_queue_size = 0` the wrapped `queue.Queue` is *unbounded*
(Python treats `maxsize ≤ 0` as infinite), so `add` succeeds and the
ring grows past the configured size. -/
theorem queue_unbounded_at_zero_counterexample :
    ((mkSafeQueue Nat 0).add 7).1 = true ∧
    ((mkSafeQueue Nat 0).add 7).2.ring.length = 1 ∧
    ¬((mkSafeQueue Nat 0).add 7).2.ring.length ≤ (mkSafeQueue Nat 0).maxsize := by
  decide

/-- C8 (amended): for every *positive* capacity the ring never exceeds
it under any operation sequence; `add` returns false iff the queue is
bounded and the ring is at capacity, changing nothing in that case; and
`submit` returns exactly the result of the underlying `add`. -/
theorem queue_bound_amended :
    (∀ (maxsize : Nat) (ops : List (QOp Nat)), 0 < maxsize →
        (applyOps (mkSafeQueue Nat maxsize) ops).ring.length ≤ maxsize) ∧
    (∀ (q : SafeQueue Nat) (x : Nat),
        ((q.add x).1 = false ↔ 0 < q.maxsize ∧ q.maxsize ≤ q.ring.length)) ∧
    (∀ (q : SafeQueue Nat) (x : Nat), (q.add x).1 = false → (q.add x).2 = q) ∧
    (∀ (q : SafeQueue Nat) (ctl : DrainCtl) (x : Nat),
        (submit q ctl x).1 = (q.add x).1) := by
  refine ⟨?_, ?_, ?_, ?_⟩
  · intro maxsize ops hpos
    have h0 : RingOk (mkSafeQueue Nat maxsize) := fun _ => Nat.zero_le _
    obtain ⟨h1, h2⟩ := applyOps_ok ops _ h0
    have h3 := h2 (by rw [h1]; exact hpos)
    rwa [h1] at h3
  · intro q x
    by_cases hc : 0 < q.maxsize ∧ q.maxsize ≤ q.ring.length
    · have hp : q.put_nowait x = none := by simp [SafeQueue.put_nowait, hc]
      simp [SafeQueue.add, hp, hc]
    · have hp : q.put_nowait x
          = some { q with ring := q.ring ++ [x], unfinished := q.unfinished + 1 } := by
        simp [SafeQueue.put_nowait, hc]
      simp [SafeQueue.add, hp, hc]
  · intro q x h
    cases hp : q.put_nowait x with
    | some q2 =>
      have : (q.add x).1 = true := by simp [SafeQueue.add, hp]
      rw [this] at h
      exact absurd h (by simp)
    | none => simp [SafeQueue.add, hp]
  · intro q ctl x
    by_cases hs : (q.add x).1 = true
    · simp [submit, hs]
    · simp only [Bool.not_eq_true] at hs
      simp [submit, hs]

/-- C8 (witness): the amended theorem applied to capacity 2 with three
adds, and to a concrete `submit`. -/
theorem queue_bound_amended_witness :
    (applyOps (mkSafeQueue Nat 2) [.add 1, .add 2, .add 3]).ring.length ≤ 2 ∧
    (submit (mkSafeQueue Nat 2) initCtl 9).1 = ((mkSafeQueue Nat 2).add 9).1 :=
  ⟨queue_bound_amended.1 2 [.add 1, .add 2, .add 3] (by decide),
    queue_bound_amended.2.2.2 (mkSafeQueue Nat 2) initCtl 9⟩

/-- C9 (counterexample): the claim lists the binary download network
error among the triggers after which "every event processed afterwards
skips the sidecar path entirely".  That is false on the code: the error
(echopost/binary.py, line 105) sets only the process-wide
`ResolvedConfig.force_disable_echopost`, which is consumed at config
resolution (resolved.py, lines 37-40) — but `Logger.__init__` resolves
the config (main.py, line 44) *before* `ensure_binary_exists` runs
(line 72) and builds the processor from that earlier config (line 111).
Concretely: starting from an unset force latch and no override, a
network-error download trips the force latch, yet the processor's
initial `echopost_disabled` is `false`, and its next primary-down event
enters the sidecar path (`_send_to_echopost`, processor.py line 119)
rather than skipping it. -/
theorem sidecar_download_error_counterexample :
    (logger_init_disabled false false .networkError).2 = true ∧
    (logger_init_disabled false false .networkError).1 = false ∧
    (worker_iteration { primaryUp := false, fallbackUp := true, sidecar := .startFailed }
        (logger_init_disabled false false .networkError).1).1 = .sidecar := by
  decide

/-- C9 (amended): the *processor's* sidecar latch — set by a sidecar
start failure, a failed sidecar send, or an exception on the sidecar
path — is never reset for the remainder of the process's lifetime, and
every event processed afterwards skips the sidecar path entirely, with
primary-down events routed to the fallback path or written back
instead.  A binary download network error instead sets the process-wide
`force_disable_echopost` latch, which is consumed only at config
resolution: every processor constructed afterwards from a freshly
resolved config starts disabled and never routes to the sidecar, while
the processor of the erroring process keeps `echopost_disabled = False`
(its config was resolved before the error) and trips its own latch only
when its next sidecar attempt fails. -/
theorem sidecar_latch_amended :
    (∀ env : WorkerEnv, (worker_iteration env true).2 = true) ∧
    (∀ envs : List WorkerEnv, (worker_run true envs).2 = true) ∧
    (∀ envs : List WorkerEnv, Route.sidecar ∉ (worker_run true envs).1) ∧
    (∀ env : WorkerEnv, env.primaryUp = false →
        (worker_iteration env true).1 = .fallbackSend ∨
          (worker_iteration env true).1 = .writebackWait) ∧
    (∀ env : WorkerEnv, ((worker_iteration env false).2 = true ↔
        (env.primaryUp = false ∧ env.sidecar ≠ .sendOk))) ∧
    (∀ force : Bool, force_after force .networkError = true) ∧
    (∀ (base : Bool) (envs : List WorkerEnv),
        resolved_disable (force_after false .networkError) base = true ∧
          Route.sidecar ∉
            (worker_run (resolved_disable (force_after false .networkError) base)
              envs).1) := by
  refine ⟨worker_iteration_latch_kept, fun envs => (worker_run_latched envs).1,
    fun envs => (worker_run_latched envs).2, ?_, ?_, fun force => rfl, ?_⟩
  · rintro ⟨pu, fu, sc⟩ h
    cases h
    cases fu
    · right; rfl
    · left; rfl
  · rintro ⟨pu, fu, sc⟩
    cases pu
    · cases sc <;> simp [worker_iteration, send_to_echopost]
    · simp [worker_iteration]
  · intro base envs
    have hd : resolved_disable (force_after false .networkError) base = true := rfl
    exact ⟨hd, by rw [hd]; exact (worker_run_latched envs).2⟩

/-- C9 (witness): the amended theorem applied at a concrete environment
with the primary down, and at a freshly constructed post-error
processor. -/
theorem sidecar_latch_amended_witness :
    ((worker_iteration { primaryUp := false, fallbackUp := true, sidecar := .sendOk }
        true).1 = .fallbackSend ∨
      (worker_iteration { primaryUp := false, fallbackUp := true, sidecar := .sendOk }
        true).1 = .writebackWait) ∧
    Route.sidecar ∉
      (worker_run (resolved_disable (force_after false .networkError) false)
        [{ primaryUp := false, fallbackUp := true, sidecar := .sendOk }]).1 :=
  ⟨sidecar_latch_amended.2.2.2.1 _ rfl,
    (sidecar_latch_amended.2.2.2.2.2.2 false
      [{ primaryUp := false, fallbackUp := true, sidecar := .sendOk }]).2⟩

/-- C10: `fill_percentage` is total for every capacity: with
`maxsize = 0` it returns 0.0 instead of dividing by zero, and for every
positive capacity it is `(ring length + writeback length) / maxsize`. -/
theorem fill_percentage_total :
    (∀ (ring wb : List Nat) (u : Nat),
        SafeQueue.fill_percentage
          ({ maxsize := 0, ring := ring, writeback := wb, unfinished := u } :
            SafeQueue Nat) = 0) ∧
    (∀ q : SafeQueue Nat, 0 < q.maxsize →
        q.fill_percentage
          = ((q.ring.length : ℚ) + (q.writeback.length : ℚ)) / (q.maxsize : ℚ)) := by
  constructor
  · intro ring wb u
    simp [SafeQueue.fill_percentage]
  · intro q h
    simp [SafeQueue.fill_percentage, h]

/-- C10 (witness): the formula applied to a concrete bounded queue. -/
theorem fill_percentage_total_witness :
    SafeQueue.fill_percentage
        ({ maxsize := 4, ring := [1], writeback := [2, 3], unfinished := 0 } :
          SafeQueue Nat)
      = ((([1] : List Nat).length : ℚ) + (([2, 3] : List Nat).length : ℚ))
          / ((4 : Nat) : ℚ) :=
  fill_percentage_total.2 _ (by decide)

end DataNadhi
